import Mathlib

/-!
Shallow embedding of the reporter repository's core:

* `src/mcp/client.ts` — `MCPClientManager` (connect, getAllTools, callTool,
  disconnect), embedded over explicit manager state.  JS strings are embedded
  as `List Char` so that index arithmetic (`indexOf`, `slice`) is provable;
  JS objects used as tool arguments are embedded as association lists of
  `JsVal`.  Exceptions thrown by a method are embedded as `Except` results;
  effects performed against an external process (transport start, discovery,
  remote tool invocation, transport close) are embedded by an explicit
  environment argument supplying each external outcome, and by returning the
  remote request that would be issued instead of performing it.
* `src/mcp/registry.ts` — `getEnabledServers`, with `process.env` embedded as
  a partial map; a JS falsy token (`undefined` or `""`) fails the check.
* `src/llm/agent.ts` is not part of the given sources; the agent loop is
  modelled from the specification (see `runAgent` below).
-/

namespace Reporter

/-- JS strings are embedded as lists of characters. -/
abbrev Str := List Char

/-- Embed a Lean string literal as a JS string value. -/
def str (s : String) : Str := s.data

/-- The qualified-name separator `"__"` used by `MCPClientManager`. -/
def sep : Str := ['_', '_']

/-- A JS runtime value as far as the manager inspects one: tool arguments are
`Record<string, unknown>`; the only field the manager ever reads is the string
field `q`, so values are either strings or opaque. -/
inductive JsVal where
  | vstr (s : Str)
  | vother (tag : Nat)
deriving DecidableEq

/-- A JS object used as a tool-argument record: an association list preserving
key order. -/
abbrev Args := List (Str × JsVal)

/-- Property read `args[k]` on an argument record. -/
def getArg (a : Args) (k : Str) : Option JsVal :=
  (a.find? fun p => decide (p.fst = k)).map Prod.snd

/-- The spread `{ ...a, k: v }`: a fresh record equal to `a` with field `k`
set to `v` (overriding in place when present, appended when absent). -/
def setArg (a : Args) (k : Str) (v : JsVal) : Args :=
  if a.any fun p => decide (p.fst = k) then
    a.map fun p => if p.fst = k then (k, v) else p
  else a ++ [(k, v)]

/-- `MCPTool` from `src/mcp/client.ts`. -/
structure MCPTool where
  name : Str
  description : Str
  input_schema : List (Str × JsVal)
deriving DecidableEq

/-- A tool as reported by a server's discovery (`listTools`) response:
`{rawName, description?, inputSchema}`. -/
structure RawTool where
  name : Str
  description : Option Str
  inputSchema : List (Str × JsVal)
deriving DecidableEq

/-- `ServerEntry` from `src/mcp/registry.ts`. -/
structure ServerEntry where
  name : Str
  command : Str
  args : List Str
  env : List (Str × Str)
deriving DecidableEq

/-- `ConnectedServer` from `src/mcp/client.ts`; the `client`/`transport`
handles are process resources identified here by the server name, which is how
`callTool` and `disconnect` select them. -/
structure ConnectedServer where
  name : Str
  tools : List MCPTool
deriving DecidableEq

/-- The `MCPClientManager` state: `private servers` and `private githubOrgs`. -/
structure Manager where
  servers : List ConnectedServer
  githubOrgs : List Str
deriving DecidableEq

/-- The tool list built by `connect` on a successful discovery:
`name = entryName + "__" + rawName`,
`description = "[" + entryName + "] " + (raw.description ?? raw.name)`. -/
def mkTools (serverName : Str) (raw : List RawTool) : List MCPTool :=
  raw.map fun t =>
    { name := serverName ++ sep ++ t.name
      description := str "[" ++ serverName ++ str "] " ++ t.description.getD t.name
      input_schema := t.inputSchema }

/-- Outcome of the external side of one connection attempt: the transport
start or `client.connect` may throw, `client.listTools` may throw after a
successful start, or discovery succeeds with a tool list. -/
inductive ConnectOutcome where
  | startFailure
  | discoveryFailure
  | success (tools : List RawTool)

/-- The per-descriptor loop body of `connect`: each iteration runs inside
`try { ... } catch { log; }`, so any failure leaves the manager unchanged for
that descriptor and the loop continues; a success appends a
`ConnectedServer`.  `world i` is the external outcome for the `i`-th
descriptor attempted. -/
def connectFrom (world : Nat → ConnectOutcome) : Nat → Manager → List ServerEntry → Manager
  | _, m, [] => m
  | i, m, e :: rest =>
    match world i with
    | .success raw =>
      connectFrom world (i + 1)
        { m with servers := m.servers ++ [{ name := e.name, tools := mkTools e.name raw }] } rest
    | _ => connectFrom world (i + 1) m rest

/-- `MCPClientManager.connect(entries)`, a total function of the external
outcomes: every throw inside the loop body is caught. -/
def connect (m : Manager) (entries : List ServerEntry) (world : Nat → ConnectOutcome) : Manager :=
  connectFrom world 0 m entries

/-- The connected servers a run of `connect` produces: one entry per
descriptor whose external outcome is a success, in descriptor order. -/
def successes (world : Nat → ConnectOutcome) : Nat → List ServerEntry → List ConnectedServer
  | _, [] => []
  | i, e :: rest =>
    match world i with
    | .success raw => { name := e.name, tools := mkTools e.name raw } :: successes world (i + 1) rest
    | _ => successes world (i + 1) rest

/-- `MCPClientManager.getAllTools()`: the method's return value paired with
the manager state after the call. -/
def getAllTools (m : Manager) : List MCPTool × Manager :=
  (m.servers.flatMap fun s => s.tools, m)

/-- `String.prototype.indexOf(needle)` on `hay`, as an `Option`: the index of
the first occurrence of `needle` as a contiguous substring. -/
def indexOfAux (needle : Str) : Str → Option Nat
  | [] => if needle = [] then some 0 else none
  | c :: rest =>
    if needle.isPrefixOf (c :: rest) then some 0
    else (indexOfAux needle rest).map (fun i => i + 1)

/-- The name split performed by `callTool`:
`sep = name.indexOf("__")`, failing when absent, else
`(name.slice(0, sep), name.slice(sep + 2))`. -/
def splitQualified (name : Str) : Option (Str × Str) :=
  match indexOfAux sep name with
  | none => none
  | some i => some (name.take i, name.drop (i + 2))

/-- The two exceptions `callTool` throws before reaching the remote call. -/
inductive ToolError where
  | invalidToolName (name : Str)
  | unknownServer (server : Str)
deriving DecidableEq

/-- The remote invocation `server.client.callTool({name, arguments})` that
`callTool` forwards: which server's client, the raw tool name, and the
(possibly rewritten) arguments. -/
structure RemoteCall where
  server : Str
  tool : Str
  arguments : Args
deriving DecidableEq

/-- `githubOrgs.map((o) => "org:" + o).join(" ")`. -/
def orgFilter (orgs : List Str) : Str :=
  List.intercalate (str " ") (orgs.map fun o => str "org:" ++ o)

/-- The body of `callTool`'s org-qualifier injection (lines 88–92 of the
manager): read `args.q`; when it is a truthy string not containing `"org:"`,
build a fresh record via the spread `{ ...args, q: orgFilter + " " + q }`.
The JS truthiness test `q && ...` makes an absent, non-string, or empty `q`
skip the rewrite. -/
def rewriteGithubQuery (orgs : List Str) (args : Args) : Args :=
  match getArg args (str "q") with
  | some (.vstr q) =>
    if !q.isEmpty && (indexOfAux (str "org:") q).isNone then
      setArg args (str "q") (.vstr (orgFilter orgs ++ str " " ++ q))
    else args
  | _ => args

/-- `MCPClientManager.callTool(name, args)`: returns the remote call it would
issue together with the manager state after the call, or the thrown error. -/
def callTool (m : Manager) (name : Str) (args : Args) : Except ToolError (RemoteCall × Manager) :=
  match splitQualified name with
  | none => .error (.invalidToolName name)
  | some (serverName, toolName) =>
    match m.servers.find? (fun s => decide (s.name = serverName)) with
    | none => .error (.unknownServer serverName)
    | some _server =>
      let args2 :=
        if decide (serverName = str "github") && decide (toolName = str "search_issues")
            && !m.githubOrgs.isEmpty then
          rewriteGithubQuery m.githubOrgs args
        else args
      .ok ({ server := serverName, tool := toolName, arguments := args2 }, m)

/-- `MCPClientManager.disconnect()`: each live transport's `close()` is
attempted inside `try { ... } catch { }`; `closeFails` says which closes
throw.  Returns the trace of close attempts `(serverName, closeFailed)` and
the manager state afterwards (`this.servers = []`). -/
def disconnect (m : Manager) (closeFails : Str → Bool) : List (Str × Bool) × Manager :=
  (m.servers.map fun s => (s.name, closeFails s.name), { m with servers := [] })

/-- The slice of `Config` that `getEnabledServers` reads for GitHub. -/
structure GithubCfg where
  enabled : Bool
  tokenEnv : Str
  orgs : List Str
deriving DecidableEq

/-- The slice of `Config` that `getEnabledServers` reads for Jira. -/
structure JiraCfg where
  enabled : Bool
  url : Str
deriving DecidableEq

/-- The slice of `Config` that `getEnabledServers` reads for Slack. -/
structure SlackCfg where
  enabled : Bool
  tokenEnv : Str
deriving DecidableEq

/-- The configuration sections `getEnabledServers` consumes. -/
structure Config where
  github : GithubCfg
  jira : JiraCfg
  slack : SlackCfg
deriving DecidableEq

/-- `getEnabledServers(config)` from `src/mcp/registry.ts`.  `penv` embeds
`process.env` (`none` = variable unset); `if (!token) throw` fails on a JS
falsy token, i.e. on an unset variable or an empty string. -/
def getEnabledServers (c : Config) (penv : Str → Option Str) : Except Str (List ServerEntry) :=
  let ghStep : Except Str (List ServerEntry) :=
    if c.github.enabled then
      match penv c.github.tokenEnv with
      | some t =>
        if t.isEmpty then
          .error (str "GitHub enabled but " ++ c.github.tokenEnv ++ str " not set in environment")
        else
          .ok [{ name := str "github", command := str "npx"
                 args := [str "-y", str "@modelcontextprotocol/server-github"]
                 env := [(str "GITHUB_PERSONAL_ACCESS_TOKEN", t)] }]
      | none =>
        .error (str "GitHub enabled but " ++ c.github.tokenEnv ++ str " not set in environment")
    else .ok []
  match ghStep with
  | .error e => .error e
  | .ok l1 =>
    let l2 :=
      if c.jira.enabled then
        l1 ++ [{ name := str "jira", command := str "npx"
                 args := [str "-y", str "mcp-remote", c.jira.url], env := [] }]
      else l1
    if c.slack.enabled then
      match penv c.slack.tokenEnv with
      | some t =>
        if t.isEmpty then
          .error (str "Slack enabled but " ++ c.slack.tokenEnv ++ str " not set in environment")
        else
          .ok (l2 ++ [{ name := str "slack", command := str "npx"
                        args := [str "-y", str "@modelcontextprotocol/server-slack"]
                        env := [(str "SLACK_BOT_TOKEN", t)] }])
      | none =>
        .error (str "Slack enabled but " ++ c.slack.tokenEnv ++ str " not set in environment")
    else .ok l2

/-- JS truthiness of an optional environment-variable value: `undefined` and
`""` are falsy. -/
def truthy : Option Str → Bool
  | none => false
  | some s => !s.isEmpty

/-- One tool call requested by a model turn. -/
structure ToolRequest where
  name : Str
  args : Args
deriving DecidableEq

/-- Modelled from the spec: a message of the agent loop's conversation
(`role: user | assistant | toolResult`); an assistant tool-use turn may carry
observed assistant text alongside its requests. -/
inductive Message where
  | user (content : Str)
  | assistant (text : Option Str) (requests : List ToolRequest)
  | toolResult (content : Str)
deriving DecidableEq

/-- Modelled from the spec: the provider's exhaustive tagged response,
`FinalText(text) | ToolUseTurn(requests)`, with any assistant text observed in
a tool-use turn carried along. -/
inductive ProviderResponse where
  | finalText (text : Str)
  | toolUseTurn (text : Option Str) (requests : List ToolRequest)

/-- Modelled from the spec: the run's termination reason,
`completed` vs `iterationLimit`. -/
inductive TerminationReason where
  | completed
  | iterationLimit
deriving DecidableEq

/-- Modelled from the spec: the agent loop's result — one finished text
payload, the termination reason, and how many provider iterations ran. -/
structure RunOutcome where
  text : Str
  reason : TerminationReason
  iterations : Nat
deriving DecidableEq

/-- Modelled from the spec: the fixed fallback text returned at the iteration
limit when no assistant text was ever observed. -/
def fallbackText : Str := str "Maximum iterations reached without a final answer."

/-- Modelled from the spec (the agent loop source `src/llm/agent.ts` is not
among the given sources): one run of the bounded loop.  `budget` is the number
of provider iterations still allowed, `lastText` the last observed assistant
text, `iters` the iterations completed so far.  Each iteration invokes the
provider once; `FinalText` terminates in `completed`; a tool-use turn executes
every requested call in emission order via `execTool` (each outcome, success
or failure description alike, becoming tool-result content), appends the turn
and its results to the conversation, increments the counter, and loops; an
exhausted budget terminates in `iterationLimit` with the last observed
assistant text or the fallback. -/
def agentLoopGo (provider : List Message → ProviderResponse) (execTool : Str → Args → Str) :
    Nat → List Message → Option Str → Nat → RunOutcome
  | 0, _, lastText, iters => { text := lastText.getD fallbackText, reason := .iterationLimit, iterations := iters }
  | budget + 1, conv, lastText, iters =>
    match provider conv with
    | .finalText t => { text := t, reason := .completed, iterations := iters + 1 }
    | .toolUseTurn txt reqs =>
      let results := reqs.map fun r => Message.toolResult (execTool r.name r.args)
      let conv2 := conv ++ [Message.assistant txt reqs] ++ results
      let last2 := match txt with | some t => some t | none => lastText
      agentLoopGo provider execTool budget conv2 last2 (iters + 1)

/-- Modelled from the spec: `run(systemPrompt, userMessage, manager, N)`.
The system prompt and the tool catalog exposed to the model are fixed for the
run and absorbed into the `provider` function; the conversation starts with
the initial user message and the counter at zero. -/
def runAgent (provider : List Message → ProviderResponse) (execTool : Str → Args → Str)
    (maxIterations : Nat) (userMessage : Str) : RunOutcome :=
  agentLoopGo provider execTool maxIterations [Message.user userMessage] none 0

/-! ## Theorems -/

/-- When a server name contains no `"__"` and does not end in `'_'`, the first
occurrence of `"__"` in `serverName ++ "__" ++ rawName` is exactly at the end
of the server name. -/
theorem indexOfAux_sep_append (s r : Str) (hno : indexOfAux sep s = none)
    (hlast : s.getLast? ≠ some '_') :
    indexOfAux sep (s ++ sep ++ r) = some s.length := by
  induction s with
  | nil => simp [indexOfAux, sep, List.isPrefixOf_cons₂]
  | cons c s ih =>
    rw [indexOfAux] at hno
    by_cases hpre : sep.isPrefixOf (c :: s) = true
    · rw [if_pos hpre] at hno
      exact absurd hno (by simp)
    · rw [if_neg hpre, Option.map_eq_none'] at hno
      have hprefix2 : sep.isPrefixOf (c :: (s ++ sep ++ r)) = false := by
        cases hc : ('_' == c) with
        | false => simp [sep, List.isPrefixOf_cons₂, hc]
        | true =>
          have hc2 : '_' = c := eq_of_beq hc
          cases s with
          | nil => exact absurd (by simp [← hc2]) hlast
          | cons d s2 =>
            have hd : ('_' == d) = false := by
              by_contra hdt
              apply hpre
              have hdt2 : ('_' == d) = true := by
                cases hdd : ('_' == d) with
                | true => rfl
                | false => exact absurd hdd hdt
              simp [sep, List.isPrefixOf_cons₂, hc, hdt2]
            simp [sep, List.isPrefixOf_cons₂, hc, hd]
      have hassoc : (c :: s) ++ sep ++ r = c :: (s ++ sep ++ r) := by simp
      have hlast2 : s.getLast? ≠ some '_' := by
        cases s with
        | nil => simp
        | cons d s2 =>
          rw [List.getLast?_cons_cons] at hlast
          exact hlast
      rw [hassoc, indexOfAux, hprefix2]
      rw [ih hno hlast2]
      simp

/-- C1 (amended): for every server name that does not contain `"__"` and does
not end in `'_'`, and every raw tool name, the qualified name built by
`connect` (`serverName ++ "__" ++ rawToolName`, as in `mkTools`) is split by
`callTool`'s parse (`splitQualified`, first occurrence of `"__"`) back into
exactly the original `(serverName, rawToolName)` pair. -/
theorem qualifiedName_roundtrip (s r : Str) (hno : indexOfAux sep s = none)
    (hlast : s.getLast? ≠ some '_') :
    splitQualified (s ++ sep ++ r) = some (s, r)
    ∧ ∀ t : RawTool, t.name = r →
        ((mkTools s [t]).map fun tool => splitQualified tool.name) = [some (s, r)] := by
  have hsplit : splitQualified (s ++ sep ++ r) = some (s, r) := by
    rw [splitQualified, indexOfAux_sep_append s r hno hlast]
    have h1 : (s ++ sep ++ r).take s.length = s := by
      rw [List.append_assoc]
      exact List.take_left s (sep ++ r)
    have h2 : (s ++ sep ++ r).drop (s.length + 2) = r := by
      rw [List.append_assoc, ← List.drop_drop, List.drop_left]
      rfl
    show some ((s ++ sep ++ r).take s.length, (s ++ sep ++ r).drop (s.length + 2)) = some (s, r)
    rw [h1, h2]
  refine ⟨hsplit, ?_⟩
  intro t ht
  show [splitQualified (s ++ sep ++ t.name)] = [some (s, r)]
  rw [ht, hsplit]

/-- C1 witness: the roundtrip at the repository's own names. -/
theorem qualifiedName_roundtrip_witness :
    splitQualified (str "github" ++ sep ++ str "search_issues")
      = some (str "github", str "search_issues") :=
  (qualifiedName_roundtrip (str "github") (str "search_issues") (by decide) (by decide)).1

/-- C1 counterexample: the server name `"a_"` contains no `"__"`, yet the
qualified name `"a_" ++ "__" ++ "x" = "a___x"` has its first `"__"` at index
1, so `callTool`'s split returns `("a", "_x")`, not the original pair. -/
theorem qualifiedName_roundtrip_cex :
    indexOfAux sep (str "a_") = none
    ∧ splitQualified (str "a_" ++ sep ++ str "x") = some (str "a", str "_x")
    ∧ splitQualified (str "a_" ++ sep ++ str "x") ≠ some (str "a_", str "x") := by
  decide

/-- The per-descriptor loop of `connect` appends exactly the successful
attempts, in order, leaving the rest of the state alone. -/
theorem connectFrom_spec (world : Nat → ConnectOutcome) :
    ∀ (l : List ServerEntry) (i : Nat) (m : Manager),
      connectFrom world i m l = { m with servers := m.servers ++ successes world i l } := by
  intro l
  induction l with
  | nil => intro i m; simp [connectFrom, successes]
  | cons e rest ih =>
    intro i m
    cases hw : world i with
    | success raw =>
      rw [connectFrom, successes]
      simp only [hw]
      rw [ih]
      simp
    | startFailure =>
      rw [connectFrom, successes]
      simp only [hw]
      exact ih _ _
    | discoveryFailure =>
      rw [connectFrom, successes]
      simp only [hw]
      exact ih _ _

/-- C3: `connect` is a total function of the external outcomes (every
per-descriptor throw is caught), attempts each descriptor sequentially, and
produces exactly one `ConnectedServer` per successful descriptor, in order —
a failing descriptor (start failure or discovery failure after a successful
start alike) contributes no entry while every later descriptor is still
attempted; in particular, over 3 descriptors where the 2nd fails discovery,
exactly the 1st and 3rd end up connected. -/
theorem connect_absorbs_failures :
    (∀ (m : Manager) (entries : List ServerEntry) (world : Nat → ConnectOutcome),
      (connect m entries world).servers = m.servers ++ successes world 0 entries)
    ∧ ∀ (e1 e2 e3 : ServerEntry) (t1 t3 : List RawTool),
        ((connect { servers := [], githubOrgs := [] } [e1, e2, e3]
            (fun i => [ConnectOutcome.success t1, .discoveryFailure, .success t3].getD
              i .startFailure)).servers.map fun s => s.name)
          = [e1.name, e3.name] := by
  constructor
  · intro m entries world
    rw [connect, connectFrom_spec]
  · intro e1 e2 e3 t1 t3
    rfl

/-- C7: after a single `connect` on a fresh manager, `getAllTools` returns the
concatenation of each connected server's tool catalog in connection order,
each catalog in discovery order (`mkTools` maps over the discovery list), and
the call leaves the manager state unchanged; e.g. connecting A (2 tools) then
B (1 tool) yields `[A__tool1, A__tool2, B__tool1]`. -/
theorem getAllTools_ordered_pure :
    (∀ (orgs : List Str) (entries : List ServerEntry) (world : Nat → ConnectOutcome),
      (getAllTools (connect { servers := [], githubOrgs := orgs } entries world)).1
          = (successes world 0 entries).flatMap (fun s => s.tools)
        ∧ (getAllTools (connect { servers := [], githubOrgs := orgs } entries world)).2
          = connect { servers := [], githubOrgs := orgs } entries world)
    ∧ ∀ (eA eB : ServerEntry) (r1 r2 r3 : RawTool),
        ((getAllTools (connect { servers := [], githubOrgs := [] } [eA, eB]
            (fun i => [ConnectOutcome.success [r1, r2], .success [r3]].getD
              i .startFailure))).1.map fun t => t.name)
          = [eA.name ++ sep ++ r1.name, eA.name ++ sep ++ r2.name, eB.name ++ sep ++ r3.name] := by
  constructor
  · intro orgs entries world
    constructor
    · simp [getAllTools, connect, connectFrom_spec]
    · rfl
  · intro eA eB r1 r2 r3
    rfl

/-- C8: `disconnect` attempts to close every live transport (the trace lists
one attempt per connected server, whether or not that close fails), is a total
function of the close outcomes (each failure is swallowed), leaves the
connection list empty, is a no-op when repeated, and a subsequent
`getAllTools` returns the empty sequence. -/
theorem disconnect_best_effort_idempotent :
    ∀ (m : Manager) (closeFails closeFails2 : Str → Bool),
      (disconnect m closeFails).1.map Prod.fst = m.servers.map (fun s => s.name)
      ∧ ((disconnect m closeFails).2).servers = []
      ∧ disconnect ((disconnect m closeFails).2) closeFails2 = ([], (disconnect m closeFails).2)
      ∧ (getAllTools ((disconnect m closeFails).2)).1 = [] := by
  intro m f g
  refine ⟨?_, rfl, rfl, rfl⟩
  simp [disconnect]

/-- C9: `callTool` never changes the manager state: on every path (both error
paths and the forwarding path, with or without the org rewrite) the state
after the call equals the state before; the rewritten arguments are a fresh
record built by `setArg` from the caller's record, which — values being
immutable in this embedding — is itself left unchanged. -/
theorem callTool_frame :
    ∀ (m : Manager) (name : Str) (args : Args),
      (callTool m name args).map (fun p => p.2) = (callTool m name args).map (fun _ => m) := by
  intro m name args
  cases hs : splitQualified name with
  | none => simp [callTool, hs, Except.map]
  | some p =>
    obtain ⟨sv, tn⟩ := p
    cases hf : m.servers.find? (fun s => decide (s.name = sv)) with
    | none => simp [callTool, hs, hf, Except.map]
    | some srv => simp [callTool, hs, hf, Except.map]

/-- C5: a name without the separator makes `callTool` fail with the
invalid-tool-name error, and a parsed server prefix with no live connection
makes it fail with the unknown-server error — in both cases the result is an
error, so no `RemoteCall` is produced and no remote invocation is made. -/
theorem callTool_error_paths :
    ∀ (m : Manager) (name : Str) (args : Args),
      (indexOfAux sep name = none → callTool m name args = .error (.invalidToolName name))
      ∧ ∀ sv tn, splitQualified name = some (sv, tn) →
          m.servers.find? (fun s => decide (s.name = sv)) = none →
          callTool m name args = .error (.unknownServer sv) := by
  intro m name args
  constructor
  · intro h
    simp [callTool, splitQualified, h]
  · intro sv tn hsplit hfind
    simp [callTool, hsplit, hfind]

/-- C5 witness: both error paths at concrete inputs. -/
theorem callTool_error_paths_witness :
    callTool { servers := [], githubOrgs := [] } (str "plain") []
        = .error (.invalidToolName (str "plain"))
    ∧ callTool { servers := [], githubOrgs := [] } (str "gh__t") []
        = .error (.unknownServer (str "gh")) :=
  ⟨(callTool_error_paths { servers := [], githubOrgs := [] } (str "plain") []).1 (by decide),
   (callTool_error_paths { servers := [], githubOrgs := [] } (str "gh__t") []).2
     (str "gh") (str "t") (by decide) rfl⟩

/-- A manager with a single live github connection. -/
def ghMgr (tools : List MCPTool) (orgs : List Str) : Manager :=
  { servers := [{ name := str "github", tools := tools }], githubOrgs := orgs }

/-- C2 counterexample: with the github server connected and exposing the
mutating tool `create_issue`, `callTool "github__create_issue"` does not fail
— it forwards the call to the remote server; `callTool` has no
write-scope/ToolNotPermitted check at all (its only error paths are the
invalid-name and unknown-server ones). -/
theorem callTool_mutating_forwarded_cex :
    callTool (ghMgr (mkTools (str "github")
        [{ name := str "create_issue", description := none, inputSchema := [] }]) [])
      (str "github__create_issue") [(str "title", .vstr (str "hello"))]
    = .ok ({ server := str "github", tool := str "create_issue",
             arguments := [(str "title", .vstr (str "hello"))] },
           ghMgr (mkTools (str "github")
             [{ name := str "create_issue", description := none, inputSchema := [] }]) []) := rfl

/-- C2 (amended): `callTool` applies no write-scope policy: a call resolving
to the issue-tracking (github) server with a mutating raw tool name is
forwarded verbatim to the remote server like any other resolvable call, for
every tool catalog, configured organization list, and argument record; any
ToolNotPermitted enforcement would have to live outside `callTool`. -/
theorem callTool_no_write_scope_check (tools : List MCPTool) (orgs : List Str) (args : Args) :
    callTool (ghMgr tools orgs) (str "github__create_issue") args
      = .ok ({ server := str "github", tool := str "create_issue", arguments := args },
             ghMgr tools orgs) := rfl

/-- The manager of the spec's worked example: github connected, organization
scopes `["acme", "west"]`. -/
def mgrAW : Manager := ghMgr [] [str "acme", str "west"]

/-- C4 counterexample: the empty query `""` lacks any scope qualifier, yet
`callTool` forwards it unchanged (the JS truthiness test `q && ...` skips the
rewrite), not prefixed with `"org:acme org:west "` as the claim prescribes. -/
theorem searchQuery_rewrite_cex :
    indexOfAux (str "org:") (str "") = none
    ∧ callTool mgrAW (str "github__search_issues") [(str "q", .vstr (str ""))]
        = .ok ({ server := str "github", tool := str "search_issues",
                 arguments := [(str "q", .vstr (str ""))] }, mgrAW)
    ∧ ([(str "q", JsVal.vstr (str ""))] : Args)
        ≠ [(str "q", JsVal.vstr (orgFilter [str "acme", str "west"] ++ str " " ++ str ""))] :=
  ⟨by decide, rfl, by decide⟩

/-- C4 (amended): for a `callTool` resolving to the github server with raw
tool `search_issues` and a non-empty configured organization list, a present,
non-empty string query `q` not containing the substring `"org:"` is forwarded
prefixed with one `org:<name>` qualifier per configured organization, in
order; a query containing `"org:"` is forwarded unchanged; with scopes
`["acme","west"]`, `"bug"` becomes `"org:acme org:west bug"` and
`"org:acme bug"` passes through. -/
theorem searchQuery_org_rewrite (tools : List MCPTool) (orgs : List Str) (args : Args) (q : Str)
    (horgs : orgs ≠ []) :
    (getArg args (str "q") = some (.vstr q) → q ≠ [] → indexOfAux (str "org:") q = none →
      callTool (ghMgr tools orgs) (str "github__search_issues") args
        = .ok ({ server := str "github", tool := str "search_issues",
                 arguments := setArg args (str "q") (.vstr (orgFilter orgs ++ str " " ++ q)) },
               ghMgr tools orgs))
    ∧ (getArg args (str "q") = some (.vstr q) → indexOfAux (str "org:") q ≠ none →
      callTool (ghMgr tools orgs) (str "github__search_issues") args
        = .ok ({ server := str "github", tool := str "search_issues", arguments := args },
               ghMgr tools orgs))
    ∧ callTool mgrAW (str "github__search_issues") [(str "q", .vstr (str "bug"))]
        = .ok ({ server := str "github", tool := str "search_issues",
                 arguments := [(str "q", .vstr (str "org:acme org:west bug"))] }, mgrAW)
    ∧ callTool mgrAW (str "github__search_issues") [(str "q", .vstr (str "org:acme bug"))]
        = .ok ({ server := str "github", tool := str "search_issues",
                 arguments := [(str "q", .vstr (str "org:acme bug"))] }, mgrAW) := by
  obtain ⟨o, os, rfl⟩ : ∃ o os, orgs = o :: os := by
    cases orgs with
    | nil => exact absurd rfl horgs
    | cons o os => exact ⟨o, os, rfl⟩
  have key : ∀ (a : Args), callTool (ghMgr tools (o :: os)) (str "github__search_issues") a
      = .ok ({ server := str "github", tool := str "search_issues",
               arguments := rewriteGithubQuery (o :: os) a }, ghMgr tools (o :: os)) :=
    fun a => rfl
  refine ⟨?_, ?_, rfl, rfl⟩
  · intro hq hne hni
    have hqe : q.isEmpty = false := by
      cases q with
      | nil => exact absurd rfl hne
      | cons a as => rfl
    rw [key]
    simp only [rewriteGithubQuery, hq]
    simp [hqe, hni]
  · intro hq hni
    obtain ⟨j, hj⟩ : ∃ j, indexOfAux (str "org:") q = some j := by
      cases hx : indexOfAux (str "org:") q with
      | none => exact absurd hx hni
      | some j => exact ⟨j, rfl⟩
    rw [key]
    simp only [rewriteGithubQuery, hq]
    simp [hj]

/-- C4 witness: the rewrite at the spec's own example. -/
theorem searchQuery_org_rewrite_witness :
    ([str "acme", str "west"] : List Str) ≠ []
    ∧ callTool mgrAW (str "github__search_issues") [(str "q", .vstr (str "bug"))]
        = .ok ({ server := str "github", tool := str "search_issues",
                 arguments := [(str "q", .vstr (str "org:acme org:west bug"))] }, mgrAW) :=
  ⟨by decide,
   (searchQuery_org_rewrite [] [str "acme", str "west"] [(str "q", .vstr (str "bug"))]
     (str "bug") (by decide)).2.2.1⟩

/-- A provider that answers every turn with a tool-use turn carrying no
assistant text drives the loop to the budget floor with the fallback text. -/
theorem agentLoopGo_toolUse_none (rq : List Message → List ToolRequest)
    (execTool : Str → Args → Str) :
    ∀ (budget : Nat) (conv : List Message) (iters : Nat),
      agentLoopGo (fun c => .toolUseTurn none (rq c)) execTool budget conv none iters
        = { text := fallbackText, reason := .iterationLimit, iterations := iters + budget } := by
  intro budget
  induction budget with
  | zero => intro conv iters; rfl
  | succ b ih =>
    intro conv iters
    have hstep : agentLoopGo (fun c => .toolUseTurn none (rq c)) execTool (b + 1) conv none iters
        = agentLoopGo (fun c => .toolUseTurn none (rq c)) execTool b
            (conv ++ [Message.assistant none (rq conv)]
              ++ (rq conv).map fun r => Message.toolResult (execTool r.name r.args))
            none (iters + 1) := rfl
    rw [hstep, ih]
    have : iters + 1 + b = iters + (b + 1) := by omega
    rw [this]

/-- A provider that answers every turn with a tool-use turn carrying the
assistant text `t` drives the loop to the budget floor returning `t`, the
last observed assistant text. -/
theorem agentLoopGo_toolUse_some (t : Str) (rq : List Message → List ToolRequest)
    (execTool : Str → Args → Str) :
    ∀ (b : Nat) (conv : List Message) (lastText : Option Str) (iters : Nat),
      agentLoopGo (fun c => .toolUseTurn (some t) (rq c)) execTool (b + 1) conv lastText iters
        = { text := t, reason := .iterationLimit, iterations := iters + (b + 1) } := by
  intro b
  induction b with
  | zero => intro conv lastText iters; rfl
  | succ b ih =>
    intro conv lastText iters
    have hstep : agentLoopGo (fun c => .toolUseTurn (some t) (rq c)) execTool (b + 1 + 1) conv
          lastText iters
        = agentLoopGo (fun c => .toolUseTurn (some t) (rq c)) execTool (b + 1)
            (conv ++ [Message.assistant (some t) (rq conv)]
              ++ (rq conv).map fun r => Message.toolResult (execTool r.name r.args))
            (some t) (iters + 1) := rfl
    rw [hstep, ih]
    have : iters + 1 + (b + 1) = iters + (b + 1 + 1) := by omega
    rw [this]

/-- C6: for every iteration bound `N ≥ 1` (default 20), a provider returning a
tool-use turn on every invocation drives `runAgent` to the iteration-limit
termination after exactly `N` iterations without raising, returning the last
observed assistant text (here: the fallback when no turn carries text, and the
constant text `t` when every turn carries `t`); a provider returning final
text on the first invocation terminates the run as completed after exactly 1
iteration with that text verbatim. -/
theorem runAgent_termination_modes (N : Nat) (hN : 1 ≤ N) (execTool : Str → Args → Str)
    (u : Str) :
    (∀ rq : List Message → List ToolRequest,
       runAgent (fun c => .toolUseTurn none (rq c)) execTool N u
         = { text := fallbackText, reason := .iterationLimit, iterations := N })
    ∧ (∀ (rq : List Message → List ToolRequest) (t : Str),
       runAgent (fun c => .toolUseTurn (some t) (rq c)) execTool N u
         = { text := t, reason := .iterationLimit, iterations := N })
    ∧ (∀ (provider : List Message → ProviderResponse) (t : Str),
       provider [Message.user u] = .finalText t →
       runAgent provider execTool N u = { text := t, reason := .completed, iterations := 1 }) := by
  refine ⟨?_, ?_, ?_⟩
  · intro rq
    rw [runAgent, agentLoopGo_toolUse_none]
    have : 0 + N = N := by omega
    rw [this]
  · intro rq t
    obtain ⟨b, rfl⟩ : ∃ b, N = b + 1 := ⟨N - 1, by omega⟩
    rw [runAgent, agentLoopGo_toolUse_some]
    have : 0 + (b + 1) = b + 1 := by omega
    rw [this]
  · intro provider t h
    obtain ⟨b, rfl⟩ : ∃ b, N = b + 1 := ⟨N - 1, by omega⟩
    rw [runAgent, agentLoopGo, h]

/-- C6 witness: both termination modes at the default bound `N = 20`. -/
theorem runAgent_termination_modes_witness :
    (1 ≤ 20)
    ∧ runAgent (fun _ => .toolUseTurn none []) (fun _ _ => str "ok") 20 (str "go")
        = { text := fallbackText, reason := .iterationLimit, iterations := 20 }
    ∧ runAgent (fun _ => .finalText (str "done")) (fun _ _ => str "ok") 20 (str "go")
        = { text := str "done", reason := .completed, iterations := 1 } :=
  ⟨by decide,
   (runAgent_termination_modes 20 (by decide) (fun _ _ => str "ok") (str "go")).1 (fun _ => []),
   (runAgent_termination_modes 20 (by decide) (fun _ _ => str "ok") (str "go")).2.2
     (fun _ => .finalText (str "done")) (str "done") rfl⟩

/-- C10 (amended): `getEnabledServers` raises an error if and only if the
github or slack integration is enabled while its configured token environment
variable is unset or set to the empty string (a JS falsy token); on success
the enabled integrations appear in the fixed order github, jira, slack, at
most one entry each, and the jira entry requires no environment token. -/
theorem getEnabledServers_spec (c : Config) (penv : Str → Option Str) :
    ((∃ e, getEnabledServers c penv = .error e)
      ↔ ((c.github.enabled = true ∧ truthy (penv c.github.tokenEnv) = false)
         ∨ (c.slack.enabled = true ∧ truthy (penv c.slack.tokenEnv) = false)))
    ∧ ∀ l, getEnabledServers c penv = .ok l →
        l.map (fun s => s.name)
          = (if c.github.enabled then [str "github"] else [])
            ++ (if c.jira.enabled then [str "jira"] else [])
            ++ (if c.slack.enabled then [str "slack"] else []) := by
  obtain ⟨⟨ge, gtok, gorgs⟩, ⟨je, jurl⟩, ⟨se, stok⟩⟩ := c
  rcases hpg : penv gtok with _ | (_ | ⟨c1, tg⟩) <;>
    rcases hps : penv stok with _ | (_ | ⟨c2, ts⟩) <;>
    cases ge <;> cases je <;> cases se <;>
    simp_all [getEnabledServers, truthy]

/-- A configuration with all three integrations enabled. -/
def cfgAll : Config :=
  { github := { enabled := true, tokenEnv := str "GH", orgs := [] }
    jira := { enabled := true, url := str "https://jira.example" }
    slack := { enabled := true, tokenEnv := str "SL" } }

/-- An environment providing non-empty tokens for both token variables. -/
def envAll : Str → Option Str := fun k =>
  if k = str "GH" then some (str "ghtok")
  else if k = str "SL" then some (str "sltok")
  else none

/-- The server list `getEnabledServers cfgAll envAll` produces. -/
def serversAll : List ServerEntry :=
  [{ name := str "github", command := str "npx"
     args := [str "-y", str "@modelcontextprotocol/server-github"]
     env := [(str "GITHUB_PERSONAL_ACCESS_TOKEN", str "ghtok")] },
   { name := str "jira", command := str "npx"
     args := [str "-y", str "mcp-remote", str "https://jira.example"], env := [] },
   { name := str "slack", command := str "npx"
     args := [str "-y", str "@modelcontextprotocol/server-slack"]
     env := [(str "SLACK_BOT_TOKEN", str "sltok")] }]

/-- C10 witness: with all integrations enabled and both tokens present, no
error is raised and the names come out as github, jira, slack. -/
theorem getEnabledServers_spec_witness :
    ((∃ e, getEnabledServers cfgAll envAll = .error e)
      ↔ ((cfgAll.github.enabled = true ∧ truthy (envAll cfgAll.github.tokenEnv) = false)
         ∨ (cfgAll.slack.enabled = true ∧ truthy (envAll cfgAll.slack.tokenEnv) = false)))
    ∧ serversAll.map (fun s => s.name)
        = (if cfgAll.github.enabled then [str "github"] else [])
          ++ (if cfgAll.jira.enabled then [str "jira"] else [])
          ++ (if cfgAll.slack.enabled then [str "slack"] else []) :=
  ⟨(getEnabledServers_spec cfgAll envAll).1,
   (getEnabledServers_spec cfgAll envAll).2 serversAll rfl⟩

/-- A configuration with only github enabled. -/
def cfgGhOnly : Config :=
  { github := { enabled := true, tokenEnv := str "GH", orgs := [] }
    jira := { enabled := false, url := str "u" }
    slack := { enabled := false, tokenEnv := str "SL" } }

/-- An environment where the github token variable is set to the empty
string. -/
def envEmptyTok : Str → Option Str := fun k =>
  if k = str "GH" then some (str "") else none

/-- C10 counterexample: the github token variable is set (to `""`), i.e. not
unset, yet `getEnabledServers` raises — the code tests JS truthiness, not
set-ness, so the claimed if-and-only-if fails. -/
theorem getEnabledServers_empty_token_cex :
    envEmptyTok (str "GH") = some (str "")
    ∧ cfgGhOnly.github.tokenEnv = str "GH"
    ∧ getEnabledServers cfgGhOnly envEmptyTok
        = .error (str "GitHub enabled but GH not set in environment") :=
  ⟨by decide, by decide, rfl⟩

end Reporter
